import Mathlib

/-!
Shallow embedding of `src/frontend/app.js` (table-extractor-web client).

The JavaScript file is a browser client: it stages image files after
validation, uploads them sequentially, triggers server-side processing
sequentially, and renders the first processing result.  We embed the
client's mutable state (`state` object plus the DOM pieces the claims
talk about) as a Lean structure `ClientState`, and each JS function as a
state transformer.  Network responses are modelled as functions from the
request index to `Except String resp`: `Except.error e` models a thrown
exception (network failure, JSON parse failure) with message `e`, and a
response value carries the HTTP `ok` flag and `statusText`.

Cosmetic DOM effects with no observable state in the claims (the
rendered file-list HTML, the progress-bar width, which is a floating
point percentage animation, `scrollIntoView`, `console` logging) are not
modelled; every other effect of the source is.
-/

namespace TableExtractorWeb

/-- Toast notification severity, from `showToast(message, type)`. -/
inductive ToastType where
  | info
  | success
  | error
deriving DecidableEq, Repr

/-- A candidate/staged file: the fields of a JS `File` the client reads
(`name`, `size`, `type`).  The `type` field is called `mime` because
`type` is a Lean keyword. -/
structure JSFile where
  name : String
  size : Nat
  mime : String
deriving DecidableEq, Repr

/-- `API_BASE_URL` from app.js line 2. -/
def API_BASE_URL : String := "http://localhost:8000"

/-- `validTypes` from `addFiles` (app.js line 109). -/
def validTypes : List String :=
  ["image/png", "image/jpeg", "image/jpg", "image/bmp", "image/tiff"]

/-- `maxSize` from `addFiles` (app.js line 110): 10 MiB. -/
def maxSize : Nat := 10 * 1024 * 1024

/-- The body of an `/upload` response: HTTP `ok` flag, `statusText`, and
the JSON fields `file_id` and `filename` read on success. -/
structure UploadResp where
  ok : Bool
  statusText : String
  file_id : String
  filename : String
deriving DecidableEq, Repr

/-- The JSON payload of a `/process` response, as read by
`displayResult`: `preview_data` (a grid of possibly-null string cells),
`row_count`, `col_count`, `excel_url`; each field may be absent. -/
structure ProcessResultJS where
  preview_data : Option (List (List (Option String)))
  row_count : Option Nat
  col_count : Option Nat
  excel_url : Option String
deriving DecidableEq, Repr

/-- A `/process` response: HTTP `ok` flag, `statusText`, JSON body. -/
structure ProcessResp where
  ok : Bool
  statusText : String
  result : ProcessResultJS
deriving DecidableEq, Repr

/-- One rendered table cell: its HTML tag (`"th"` or `"td"`) and text. -/
structure Cell where
  tag : String
  text : String
deriving DecidableEq, Repr

/-- An entry of the local `uploadResults` array in `handleProcess`. -/
structure UploadEntry where
  index : Nat
  fileId : String
  filename : String
deriving DecidableEq, Repr

/-- The client's state: the global `state` object (`files`,
`uploadedFileIds`, `processing`) together with the DOM state the claims
observe.  `uploadedFileIds` is an association list from index to id
(modelling the JS object); `tablePreview = none` and
`imagePreviewFile = none` model the placeholder markup. -/
structure ClientState where
  files : List JSFile
  uploadedFileIds : List (Nat × String)
  processing : Bool
  processBtnDisabled : Bool
  overlayVisible : Bool
  overlayMessage : String
  toasts : List (String × ToastType)
  tablePreview : Option (List (List Cell))
  imagePreviewFile : Option JSFile
  rowCount : Nat
  colCount : Nat
  cellCount : Nat
  downloadHref : Option String
  downloadName : Option String
  resultVisible : Bool
deriving DecidableEq, Repr

/-- The page's initial state: empty file list, empty upload-id cache,
not processing, placeholders shown, result section hidden. -/
def initState : ClientState where
  files := []
  uploadedFileIds := []
  processing := false
  processBtnDisabled := true
  overlayVisible := false
  overlayMessage := ""
  toasts := []
  tablePreview := none
  imagePreviewFile := none
  rowCount := 0
  colCount := 0
  cellCount := 0
  downloadHref := none
  downloadName := none
  resultVisible := false

/-- `showToast` (app.js 369): appends a toast notification. -/
def showToast (msg : String) (ty : ToastType) (st : ClientState) : ClientState :=
  { st with toasts := st.toasts ++ [(msg, ty)] }

/-- `updateProcessButton` (app.js 181):
`processBtn.disabled = state.files.length === 0 || state.processing`. -/
def updateProcessButton (st : ClientState) : ClientState :=
  { st with processBtnDisabled := st.files.length == 0 || st.processing }

/-- `previewFirstImage` (app.js 186): shows the first staged file, or
the placeholder when the list is empty. -/
def previewFirstImage (st : ClientState) : ClientState :=
  { st with imagePreviewFile := st.files.head? }

/-- `clearPreviews` (app.js 212): resets both previews to placeholders. -/
def clearPreviews (st : ClientState) : ClientState :=
  { st with imagePreviewFile := none, tablePreview := none }

/-- `hideResultSection` (app.js 346). -/
def hideResultSection (st : ClientState) : ClientState :=
  { st with resultVisible := false }

/-- `showLoading` (app.js 357): sets the overlay message and shows it. -/
def showLoading (msg : String) (st : ClientState) : ClientState :=
  { st with overlayMessage := msg, overlayVisible := true }

/-- `hideLoading` (app.js 364). -/
def hideLoading (st : ClientState) : ClientState :=
  { st with overlayVisible := false }

/-- The validation filter body inside `addFiles` (app.js 108-123):
a candidate passes iff its MIME type is in `validTypes` and its size is
at most `maxSize`. -/
def validFile (f : JSFile) : Bool :=
  validTypes.contains f.mime && decide (f.size ≤ maxSize)

/-- The `files.filter(...)` pass of `addFiles` (app.js 108-123),
returning the surviving files and the error toasts emitted, in order:
wrong MIME type is reported first, then oversize. -/
def validateCandidates : List JSFile → List JSFile × List (String × ToastType)
  | [] => ([], [])
  | f :: rest =>
    let (vs, ts) := validateCandidates rest
    if ¬ (validTypes.contains f.mime) then
      (vs, ("文件 " ++ f.name ++ " 不是支持的图片格式", ToastType.error) :: ts)
    else if maxSize < f.size then
      (vs, ("文件 " ++ f.name ++ " 太大，最大支持 10MB", ToastType.error) :: ts)
    else
      (f :: vs, ts)

/-- The `validFiles.forEach(...)` body of `addFiles` (app.js 125-131):
push the file unless an already-staged file has the same name and size. -/
def pushIfNew (files : List JSFile) (f : JSFile) : List JSFile :=
  if files.any (fun g => g.name == f.name && g.size == f.size) then files
  else files ++ [f]

/-- `addFiles` (app.js 107-136): validate the candidates (emitting one
error toast per rejected file), stage the survivors skipping
(name, size) duplicates, then refresh file list, button, preview. -/
def addFiles (cands : List JSFile) (st : ClientState) : ClientState :=
  let (valid, ts) := validateCandidates cands
  let st := { st with files := valid.foldl pushIfNew st.files,
                      toasts := st.toasts ++ ts }
  previewFirstImage (updateProcessButton st)

/-- `delete state.uploadedFileIds[index]` on the association list. -/
def deleteKey (i : Nat) (m : List (Nat × String)) : List (Nat × String) :=
  m.filter (fun p => p.1 != i)

/-- `removeFile` (app.js 162-168): `state.files.splice(index, 1)` —
i.e. drop the element at `index` — delete the cached upload id, then
refresh file list, button, preview. -/
def removeFile (i : Nat) (st : ClientState) : ClientState :=
  let st := { st with files := st.files.take i ++ st.files.drop (i + 1),
                      uploadedFileIds := deleteKey i st.uploadedFileIds }
  previewFirstImage (updateProcessButton st)

/-- `clearFileList` (app.js 171-178). -/
def clearFileList (st : ClientState) : ClientState :=
  let st := { st with files := [], uploadedFileIds := [] }
  hideResultSection (clearPreviews (updateProcessButton st))

/-- `handleProcessAnother` (app.js 351-354). -/
def handleProcessAnother (st : ClientState) : ClientState :=
  clearFileList (hideResultSection st)

/-- The row-building loop of `displayResult` (app.js 315-322), carried
out with an explicit row index: a cell's tag is `th` exactly when the
grid has a header (more than one row) and this is row 0; a null cell
renders as the empty string (`cell || ''`). -/
def buildRows (hasHeader : Bool) : Nat → List (List (Option String)) → List (List Cell)
  | _, [] => []
  | ri, row :: rest =>
    row.map (fun c =>
        Cell.mk (if hasHeader && ri == 0 then "th" else "td") (c.getD ""))
      :: buildRows hasHeader (ri + 1) rest

/-- The table built by `displayResult` from a non-empty preview grid
(app.js 310-324): `hasHeader = result.preview_data.length > 1`. -/
def buildTable (grid : List (List (Option String))) : List (List Cell) :=
  buildRows (decide (1 < grid.length)) 0 grid

/-- `displayResult` (app.js 307-343): renders the preview grid when it
is present and non-empty (otherwise leaves the previous table), always
updates the three counters with `|| 0` defaults, sets the download link
only when `excel_url` is present, and reveals the result section. -/
def displayResult (result : ProcessResultJS) (st : ClientState) : ClientState :=
  let st :=
    match result.preview_data with
    | some grid =>
      if 0 < grid.length then { st with tablePreview := some (buildTable grid) } else st
    | none => st
  let st := { st with rowCount := result.row_count.getD 0,
                      colCount := result.col_count.getD 0,
                      cellCount := result.row_count.getD 0 * result.col_count.getD 0 }
  let st :=
    match result.excel_url with
    | some u => { st with downloadHref := some (API_BASE_URL ++ u),
                          downloadName := some "table.xlsx" }
    | none => st
  { st with resultVisible := true }

/-- The overlay message written before upload `i` of `total`. -/
def uploadMsg (i total : Nat) : String :=
  "正在上传文件 " ++ toString i ++ "/" ++ toString total ++ "..."

/-- The overlay message written before processing call `i` of `total`. -/
def processMsg (i total : Nat) : String :=
  "正在处理文件 " ++ toString i ++ "/" ++ toString total ++ "..."

/-- The upload loop of `handleProcess` (app.js 240-262).  `fuel` is the
number of files still to upload and `i` the current index; the loop
issues requests strictly in order, stops at the first thrown exception
or non-ok response, and otherwise collects `{index, fileId, filename}`.
Returns the final state, the list of indices for which an upload request
was issued, and either the collected results or the thrown error. -/
def uploadLoop (uresp : Nat → Except String UploadResp) (total : Nat) :
    Nat → Nat → ClientState → ClientState × List Nat × Except String (List UploadEntry)
  | 0, _, st => (st, [], Except.ok [])
  | fuel + 1, i, st =>
    let st := { st with overlayMessage := uploadMsg (i + 1) total }
    match uresp i with
    | Except.error e => (st, [i], Except.error e)
    | Except.ok r =>
      if r.ok then
        match uploadLoop uresp total fuel (i + 1) st with
        | (st', calls, res) =>
          (st', i :: calls, res.map (fun l => UploadEntry.mk i r.file_id r.filename :: l))
      else
        (st, [i], Except.error ("上传失败: " ++ r.statusText))

/-- The processing loop of `handleProcess` (app.js 267-286), iterating
over the collected upload entries with loop counter `i`; the `/process`
request for an entry carries its `fileId` and `filename`.  Returns the
final state, the list of `(fileId, filename)` pairs for which a process
request was issued, and either the collected `(index, result)` pairs or
the thrown error. -/
def processLoop (presp : Nat → Except String ProcessResp) (total : Nat) :
    List UploadEntry → Nat → ClientState →
      ClientState × List (String × String) × Except String (List (Nat × ProcessResultJS))
  | [], _, st => (st, [], Except.ok [])
  | e :: rest, i, st =>
    let st := { st with overlayMessage := processMsg (i + 1) total }
    match presp i with
    | Except.error err => (st, [(e.fileId, e.filename)], Except.error err)
    | Except.ok r =>
      if r.ok then
        match processLoop presp total rest (i + 1) st with
        | (st', calls, res) =>
          (st', (e.fileId, e.filename) :: calls,
           res.map (fun l => (e.index, r.result) :: l))
      else
        (st, [(e.fileId, e.filename)], Except.error ("处理失败: " ++ r.statusText))

/-- The `finally` block of `handleProcess` (app.js 299-303):
clear the processing flag, re-evaluate the button, hide the overlay. -/
def finallyCleanup (st : ClientState) : ClientState :=
  hideLoading (updateProcessButton { st with processing := false })

/-- The observable outcome of one `handleProcess` invocation: the final
client state, which upload and process requests were issued, and the
arguments passed to `displayResult`. -/
structure BatchOut where
  state : ClientState
  uploadCalls : List Nat
  processCalls : List (String × String)
  rendered : List ProcessResultJS
deriving DecidableEq, Repr

/-- `handleProcess` (app.js 229-304).  Guard; set the processing flag,
disable the button, show the overlay; run the upload loop, then the
processing loop; display the first result if any; toast the summary; a
thrown error instead reaches the catch block's error toast.  Both exits
run the `finally` cleanup. -/
def handleProcess (uresp : Nat → Except String UploadResp)
    (presp : Nat → Except String ProcessResp) (st : ClientState) : BatchOut :=
  if st.files.length == 0 || st.processing then BatchOut.mk st [] [] []
  else
    let st := showLoading "正在上传文件..." (updateProcessButton { st with processing := true })
    let n := st.files.length
    match uploadLoop uresp n n 0 st with
    | (st, ucalls, Except.error msg) =>
      BatchOut.mk (finallyCleanup (showToast ("处理失败: " ++ msg) ToastType.error st))
        ucalls [] []
    | (st, ucalls, Except.ok entries) =>
      match processLoop presp entries.length entries 0 st with
      | (st, pcalls, Except.error msg) =>
        BatchOut.mk (finallyCleanup (showToast ("处理失败: " ++ msg) ToastType.error st))
          ucalls pcalls []
      | (st, pcalls, Except.ok presults) =>
        let rendered :=
          match presults with
          | [] => ([] : List ProcessResultJS)
          | (_, r) :: _ => [r]
        let st :=
          match presults with
          | [] => st
          | (_, r) :: _ => displayResult r st
        let st :=
          showToast ("成功处理 " ++ toString presults.length ++ " 个文件") ToastType.success st
        BatchOut.mk (finallyCleanup st) ucalls pcalls rendered

/-- The user-facing operations that drive the client state; `batch` is
parametrised by the two servers' response behaviours. -/
inductive Action where
  | add (cands : List JSFile)
  | remove (i : Nat)
  | clear
  | batch (uresp : Nat → Except String UploadResp) (presp : Nat → Except String ProcessResp)
  | another

/-- One event-handler invocation. -/
def step (st : ClientState) : Action → ClientState
  | Action.add cands => addFiles cands st
  | Action.remove i => removeFile i st
  | Action.clear => clearFileList st
  | Action.batch u p => (handleProcess u p st).state
  | Action.another => handleProcessAnother st

/-- Running a sequence of user actions from the initial page state. -/
def runActions (acts : List Action) : ClientState :=
  acts.foldl step initState

/-- Two files with equal name and size, the duplicate key of `addFiles`
(app.js 127). -/
def sameKey (f g : JSFile) : Bool :=
  f.name == g.name && f.size == g.size

/-- The staged-list invariant: no two entries share (name, size). -/
def NoDupKeys (l : List JSFile) : Prop :=
  l.Pairwise (fun f g => sameKey f g = false)

/-! ### Concrete fixtures used by the witnesses -/

/-- A small valid PNG candidate. -/
def pngA : JSFile := JSFile.mk "a.png" 100 "image/png"

/-- A second small valid PNG candidate. -/
def pngB : JSFile := JSFile.mk "b.png" 200 "image/png"

/-- A state with two staged files, not processing. -/
def stTwo : ClientState := { initState with files := [pngA, pngB], processBtnDisabled := false }

/-- A successful upload response for index `i`. -/
def okUpload (i : Nat) : UploadResp :=
  UploadResp.mk true "OK" ("id" ++ toString i) ("f" ++ toString i)

/-- A failing (HTTP 500) upload response. -/
def failUpload : UploadResp := UploadResp.mk false "Internal Server Error" "" ""

/-- Upload responses: index 0 succeeds, every later index is HTTP 500. -/
def urFailAt1 (i : Nat) : UploadResp :=
  if i == 0 then okUpload 0 else failUpload

/-- Upload server behaviour: index 0 succeeds, every later index fails. -/
def urespFailAt1 : Nat → Except String UploadResp :=
  fun i => Except.ok (urFailAt1 i)

/-- Upload server behaviour: every index succeeds. -/
def urespAllOk : Nat → Except String UploadResp :=
  fun i => Except.ok (okUpload i)

/-- A candidate with a disallowed MIME type. -/
def badGif : JSFile := JSFile.mk "x.gif" 100 "image/gif"

/-- A sample processing payload with a two-row grid. -/
def sampleResult : ProcessResultJS :=
  ProcessResultJS.mk (some [[some "H1", some "H2"], [some "v1", some "v2"]])
    (some 2) (some 2) (some "/download/x.xlsx")

/-- Process responses: every call succeeds with `sampleResult`. -/
def prAllOk : Nat → ProcessResp :=
  fun _ => ProcessResp.mk true "OK" sampleResult

/-- Process server behaviour: every call succeeds with `sampleResult`. -/
def prespAllOk : Nat → Except String ProcessResp :=
  fun i => Except.ok (prAllOk i)

/-! ### Helper lemmas -/

/-- The upload loop touches no state field except the overlay message. -/
theorem uploadLoop_preserves (u : Nat → Except String UploadResp) (t : Nat) :
    ∀ fuel i st,
      (uploadLoop u t fuel i st).1.files = st.files ∧
      (uploadLoop u t fuel i st).1.uploadedFileIds = st.uploadedFileIds ∧
      (uploadLoop u t fuel i st).1.processing = st.processing ∧
      (uploadLoop u t fuel i st).1.toasts = st.toasts := by
  intro fuel
  induction fuel with
  | zero => intro i st; simp [uploadLoop]
  | succ n ih =>
    intro i st
    simp only [uploadLoop]
    cases u i with
    | error e => simp
    | ok r =>
      by_cases hok : r.ok
      · rcases hrec : uploadLoop u t n (i + 1) { st with overlayMessage := uploadMsg (i + 1) t }
          with ⟨st', calls, res⟩
        have h := ih (i + 1) { st with overlayMessage := uploadMsg (i + 1) t }
        rw [hrec] at h
        simp [hok, hrec]
        exact h
      · simp [hok]

/-- The processing loop touches no state field except the overlay message. -/
theorem processLoop_preserves (p : Nat → Except String ProcessResp) (t : Nat) :
    ∀ entries i st,
      (processLoop p t entries i st).1.files = st.files ∧
      (processLoop p t entries i st).1.uploadedFileIds = st.uploadedFileIds ∧
      (processLoop p t entries i st).1.processing = st.processing ∧
      (processLoop p t entries i st).1.toasts = st.toasts := by
  intro entries
  induction entries with
  | nil => intro i st; simp [processLoop]
  | cons e rest ih =>
    intro i st
    simp only [processLoop]
    cases p i with
    | error err => simp
    | ok r =>
      by_cases hok : r.ok
      · rcases hrec : processLoop p t rest (i + 1) { st with overlayMessage := processMsg (i + 1) t }
          with ⟨st', calls, res⟩
        have h := ih (i + 1) { st with overlayMessage := processMsg (i + 1) t }
        rw [hrec] at h
        simp [hok, hrec]
        exact h
      · simp [hok]

/-- `displayResult` touches neither the staged list, the upload-id
cache, the processing flag, nor the toasts. -/
theorem displayResult_preserves (r : ProcessResultJS) (st : ClientState) :
    (displayResult r st).files = st.files ∧
    (displayResult r st).uploadedFileIds = st.uploadedFileIds ∧
    (displayResult r st).processing = st.processing ∧
    (displayResult r st).toasts = st.toasts := by
  simp only [displayResult]
  cases r.preview_data with
  | none =>
    cases r.excel_url with
    | none => simp
    | some u => simp
  | some grid =>
    cases r.excel_url with
    | none => by_cases h : 0 < grid.length <;> simp [h]
    | some u => by_cases h : 0 < grid.length <;> simp [h]

/-- `displayResult` always updates the three counters (with `|| 0`
defaults) and reveals the result section. -/
theorem displayResult_counts (r : ProcessResultJS) (st : ClientState) :
    (displayResult r st).rowCount = r.row_count.getD 0 ∧
    (displayResult r st).colCount = r.col_count.getD 0 ∧
    (displayResult r st).cellCount = r.row_count.getD 0 * r.col_count.getD 0 ∧
    (displayResult r st).resultVisible = true := by
  simp only [displayResult]
  cases r.preview_data with
  | none =>
    cases r.excel_url with
    | none => simp
    | some u => simp
  | some grid =>
    cases r.excel_url with
    | none => by_cases h : 0 < grid.length <;> simp [h]
    | some u => by_cases h : 0 < grid.length <;> simp [h]

/-- Projection lemmas for rewriting. -/
theorem displayResult_rowCount (r : ProcessResultJS) (st : ClientState) :
    (displayResult r st).rowCount = r.row_count.getD 0 :=
  (displayResult_counts r st).1

/-- Column counter after `displayResult`. -/
theorem displayResult_colCount (r : ProcessResultJS) (st : ClientState) :
    (displayResult r st).colCount = r.col_count.getD 0 :=
  (displayResult_counts r st).2.1

/-- Cell counter after `displayResult`. -/
theorem displayResult_cellCount (r : ProcessResultJS) (st : ClientState) :
    (displayResult r st).cellCount = r.row_count.getD 0 * r.col_count.getD 0 :=
  (displayResult_counts r st).2.2.1

/-- The result section is revealed by `displayResult`. -/
theorem displayResult_resultVisible (r : ProcessResultJS) (st : ClientState) :
    (displayResult r st).resultVisible = true :=
  (displayResult_counts r st).2.2.2

/-- `displayResult` emits no toast. -/
theorem displayResult_toasts (r : ProcessResultJS) (st : ClientState) :
    (displayResult r st).toasts = st.toasts :=
  (displayResult_preserves r st).2.2.2

/-- A whole batch run leaves the staged list and the upload-id cache as
they were. -/
theorem handleProcess_preserves (u : Nat → Except String UploadResp)
    (p : Nat → Except String ProcessResp) (st : ClientState) :
    (handleProcess u p st).state.files = st.files ∧
    (handleProcess u p st).state.uploadedFileIds = st.uploadedFileIds := by
  simp only [handleProcess]
  by_cases hg : st.files.length == 0 || st.processing
  · simp [hg]
  · simp only [hg, Bool.false_eq_true, if_false]
    set st1 := showLoading "正在上传文件..." (updateProcessButton { st with processing := true })
      with hst1
    have hfiles1 : st1.files = st.files := by simp [hst1, showLoading, updateProcessButton]
    have hids1 : st1.uploadedFileIds = st.uploadedFileIds := by
      simp [hst1, showLoading, updateProcessButton]
    rcases hu : uploadLoop u st1.files.length st1.files.length 0 st1 with ⟨st2, ucalls, ures⟩
    have hpres := uploadLoop_preserves u st1.files.length st1.files.length 0 st1
    rw [hu] at hpres
    cases ures with
    | error msg =>
      simp only [hu, finallyCleanup, hideLoading, updateProcessButton, showToast]
      exact ⟨hpres.1.trans hfiles1, hpres.2.1.trans hids1⟩
    | ok entries =>
      rcases hp : processLoop p entries.length entries 0 st2 with ⟨st3, pcalls, pres⟩
      have hpres2 := processLoop_preserves p entries.length entries 0 st2
      rw [hp] at hpres2
      cases pres with
      | error msg =>
        simp only [hu, hp, finallyCleanup, hideLoading, updateProcessButton, showToast]
        exact ⟨hpres2.1.trans (hpres.1.trans hfiles1),
               hpres2.2.1.trans (hpres.2.1.trans hids1)⟩
      | ok presults =>
        cases presults with
        | nil =>
          simp only [hu, hp, finallyCleanup, hideLoading, updateProcessButton, showToast]
          exact ⟨hpres2.1.trans (hpres.1.trans hfiles1),
                 hpres2.2.1.trans (hpres.2.1.trans hids1)⟩
        | cons hd tl =>
          have hd1 := displayResult_preserves hd.2 st3
          simp only [hu, hp, finallyCleanup, hideLoading, updateProcessButton, showToast]
          exact ⟨hd1.1.trans (hpres2.1.trans (hpres.1.trans hfiles1)),
                 hd1.2.1.trans (hpres2.2.1.trans (hpres.2.1.trans hids1))⟩

/-- Peeling the first element off a shifted `List.range` map. -/
theorem range_map_shift {α : Type} (g : Nat → α) (i j : Nat) :
    (List.range (j + 1)).map (fun k => g (i + k)) =
      g i :: (List.range j).map (fun k => g (i + 1 + k)) := by
  rw [List.range_succ_eq_map]
  simp only [List.map_cons, Nat.add_zero, List.map_map, Function.comp]
  exact congrArg (List.cons (g i))
    (List.map_congr_left (fun k _ => congrArg g (by omega)))

/-- If the first `j` uploads succeed and upload `j` comes back with a
non-ok HTTP status, the upload loop stops right there: requests are
issued exactly for indices `i .. i+j`, and the loop throws the
`上传失败` error holding the response's status text. -/
theorem uploadLoop_fail (u : Nat → Except String UploadResp) (t : Nat)
    (ur : Nat → UploadResp) :
    ∀ j fuel i st, j < fuel →
      (∀ k, k < j → u (i + k) = Except.ok (ur (i + k)) ∧ (ur (i + k)).ok = true) →
      u (i + j) = Except.ok (ur (i + j)) → (ur (i + j)).ok = false →
      uploadLoop u t fuel i st =
        ({ st with overlayMessage := uploadMsg (i + j + 1) t },
         (List.range (j + 1)).map (fun k => i + k),
         Except.error ("上传失败: " ++ (ur (i + j)).statusText)) := by
  intro j
  induction j with
  | zero =>
    intro fuel i st hlt hpre hfail hnok
    obtain ⟨f, rfl⟩ : ∃ f, fuel = f + 1 := ⟨fuel - 1, by omega⟩
    rw [Nat.add_zero] at hfail hnok
    simp only [uploadLoop]
    rw [hfail]
    simp [hnok, List.range_succ]
  | succ j ih =>
    intro fuel i st hlt hpre hfail hnok
    obtain ⟨f, rfl⟩ : ∃ f, fuel = f + 1 := ⟨fuel - 1, by omega⟩
    have h0 := hpre 0 (Nat.succ_pos j)
    rw [Nat.add_zero] at h0
    simp only [uploadLoop]
    rw [h0.1]
    simp only [h0.2, if_true]
    have harith : i + 1 + j = i + (j + 1) := by omega
    have ihres := ih f (i + 1) { st with overlayMessage := uploadMsg (i + 1) t } (by omega)
      (fun k hk => by
        have h := hpre (k + 1) (by omega)
        rwa [show i + (k + 1) = i + 1 + k from by omega] at h)
      (by rw [harith]; exact hfail)
      (by rw [harith]; exact hnok)
    rw [ihres, harith, range_map_shift (fun x => x) i (j + 1)]
    rfl

/-- If every upload succeeds, the upload loop issues requests for all
indices `i .. i+fuel-1` in order and returns the collected
`{index, fileId, filename}` entries. -/
theorem uploadLoop_ok (u : Nat → Except String UploadResp) (t : Nat)
    (ur : Nat → UploadResp) :
    ∀ f i st,
      (∀ k, k < f + 1 → u (i + k) = Except.ok (ur (i + k)) ∧ (ur (i + k)).ok = true) →
      uploadLoop u t (f + 1) i st =
        ({ st with overlayMessage := uploadMsg (i + f + 1) t },
         (List.range (f + 1)).map (fun k => i + k),
         Except.ok ((List.range (f + 1)).map
           (fun k => UploadEntry.mk (i + k) (ur (i + k)).file_id (ur (i + k)).filename))) := by
  intro f
  induction f with
  | zero =>
    intro i st hpre
    have h0 := hpre 0 Nat.one_pos
    rw [Nat.add_zero] at h0
    simp only [uploadLoop]
    rw [h0.1]
    simp [h0.2, List.range_succ, Except.map]
  | succ f ih =>
    intro i st hpre
    have h0 := hpre 0 (Nat.succ_pos (f + 1))
    rw [Nat.add_zero] at h0
    rw [uploadLoop]
    rw [h0.1]
    simp only [h0.2, if_true]
    have ihres := ih (i + 1) { st with overlayMessage := uploadMsg (i + 1) t }
      (fun k hk => by
        have h := hpre (k + 1) (by omega)
        rwa [show i + (k + 1) = i + 1 + k from by omega] at h)
    rw [ihres,
        range_map_shift (fun x => x) i (f + 1),
        range_map_shift (fun x => UploadEntry.mk x (ur x).file_id (ur x).filename) i (f + 1),
        show i + 1 + f + 1 = i + (f + 1) + 1 from by omega]
    rfl

/-- The `(index, result)` pairs the processing loop collects when every
call succeeds: entry `k` of the list (in loop order, starting at loop
counter `i`) pairs the entry's upload index with response `i + k`. -/
def processedOf (pr : Nat → ProcessResp) :
    List UploadEntry → Nat → List (Nat × ProcessResultJS)
  | [], _ => []
  | e :: rest, i => (e.index, (pr i).result) :: processedOf pr rest (i + 1)

/-- `processedOf` yields one result per entry. -/
theorem processedOf_length (pr : Nat → ProcessResp) :
    ∀ entries i, (processedOf pr entries i).length = entries.length := by
  intro entries
  induction entries with
  | nil => intro i; rfl
  | cons e rest ih => intro i; simp [processedOf, ih]

/-- If every processing call succeeds, the processing loop issues one
`(fileId, filename)` request per collected upload entry, in order, and
returns the collected results. -/
theorem processLoop_ok (p : Nat → Except String ProcessResp) (t : Nat)
    (pr : Nat → ProcessResp) :
    ∀ rest e i st,
      (∀ k, k < rest.length + 1 → p (i + k) = Except.ok (pr (i + k)) ∧ (pr (i + k)).ok = true) →
      processLoop p t (e :: rest) i st =
        ({ st with overlayMessage := processMsg (i + rest.length + 1) t },
         (e :: rest).map (fun x => (x.fileId, x.filename)),
         Except.ok (processedOf pr (e :: rest) i)) := by
  intro rest
  induction rest with
  | nil =>
    intro e i st hpre
    have h0 := hpre 0 Nat.one_pos
    rw [Nat.add_zero] at h0
    simp only [processLoop]
    rw [h0.1]
    simp [h0.2, processedOf, Except.map]
  | cons e2 rest ih =>
    intro e i st hpre
    have h0 := hpre 0 (Nat.succ_pos (rest.length + 1))
    rw [Nat.add_zero] at h0
    rw [processLoop]
    rw [h0.1]
    simp only [h0.2, if_true]
    have ihres := ih e2 (i + 1) { st with overlayMessage := processMsg (i + 1) t }
      (fun k hk => by
        have h := hpre (k + 1) (by simp only [List.length_cons]; omega)
        rwa [show i + (k + 1) = i + 1 + k from by omega] at h)
    rw [ihres, show i + 1 + rest.length + 1 = i + (e2 :: rest).length + 1 from by
      simp only [List.length_cons]; omega]
    rfl

/-- The candidates surviving validation are exactly those passing
`validFile`, in order. -/
theorem validateCandidates_fst (l : List JSFile) :
    (validateCandidates l).1 = l.filter validFile := by
  induction l with
  | nil => rfl
  | cons f rest ih =>
    simp only [validateCandidates]
    by_cases hm : f.mime ∈ validTypes
    · by_cases hs : maxSize < f.size
      · have hv : validFile f = false := by
          simp [validFile, hm]
          omega
        simp [hm, hs, hv, List.filter_cons, ih]
      · have hv : validFile f = true := by
          simp [validFile, hm]
          omega
        simp [hm, hs, hv, List.filter_cons, ih]
    · have hv : validFile f = false := by
        simp [validFile, hm]
      simp [hm, hv, List.filter_cons, ih]

/-- Validation emits exactly one toast per rejected candidate. -/
theorem validateCandidates_snd_length (l : List JSFile) :
    (validateCandidates l).2.length = l.countP (fun f => !(validFile f)) := by
  induction l with
  | nil => rfl
  | cons f rest ih =>
    simp only [validateCandidates]
    by_cases hm : f.mime ∈ validTypes
    · by_cases hs : maxSize < f.size
      · have hv : validFile f = false := by
          simp [validFile, hm]
          omega
        simp [hm, hs, hv, List.countP_cons, ih]
      · have hv : validFile f = true := by
          simp [validFile, hm]
          omega
        simp [hm, hs, hv, List.countP_cons, ih]
    · have hv : validFile f = false := by
        simp [validFile, hm]
      simp [hm, hv, List.countP_cons, ih]

/-- Every toast validation emits is an error toast. -/
theorem validateCandidates_snd_error (l : List JSFile) :
    ∀ t ∈ (validateCandidates l).2, t.2 = ToastType.error := by
  induction l with
  | nil => intro t ht; simp [validateCandidates] at ht
  | cons f rest ih =>
    intro t ht
    simp only [validateCandidates] at ht
    by_cases hm : f.mime ∈ validTypes
    · by_cases hs : maxSize < f.size
      · simp [hm, hs] at ht
        rcases ht with h | h
        · rw [h]
        · exact ih t h
      · simp [hm, hs] at ht
        exact ih t ht
    · simp [hm] at ht
      rcases ht with h | h
      · rw [h]
      · exact ih t h

/-- The staged list produced by `addFiles`. -/
theorem addFiles_files (cands : List JSFile) (st : ClientState) :
    (addFiles cands st).files = ((validateCandidates cands).1).foldl pushIfNew st.files := by
  simp only [addFiles]
  rcases h : validateCandidates cands with ⟨valid, ts⟩
  simp [previewFirstImage, updateProcessButton]

/-- The toasts appended by `addFiles` are the validation toasts. -/
theorem addFiles_toasts (cands : List JSFile) (st : ClientState) :
    (addFiles cands st).toasts = st.toasts ++ (validateCandidates cands).2 := by
  simp only [addFiles]
  rcases h : validateCandidates cands with ⟨valid, ts⟩
  simp [previewFirstImage, updateProcessButton]

/-- Single-candidate behaviour of `addFiles`: a rejected candidate
leaves the list alone and emits one error toast; an accepted candidate
goes through the duplicate filter with no toast. -/
theorem addFiles_single (f : JSFile) (st : ClientState) :
    (validFile f = false →
      (addFiles [f] st).files = st.files ∧
      ∃ msg, (addFiles [f] st).toasts = st.toasts ++ [(msg, ToastType.error)]) ∧
    (validFile f = true →
      (addFiles [f] st).files = pushIfNew st.files f ∧
      (addFiles [f] st).toasts = st.toasts) := by
  constructor
  · intro hv
    constructor
    · rw [addFiles_files, validateCandidates_fst]
      simp [List.filter_cons, hv]
    · rw [addFiles_toasts]
      simp only [validateCandidates]
      by_cases hm : f.mime ∈ validTypes
      · have hs : maxSize < f.size := by
          simp [validFile, hm] at hv
          omega
        simp [hm, hs, validateCandidates]
      · simp [hm, validateCandidates]
  · intro hv
    constructor
    · rw [addFiles_files, validateCandidates_fst]
      simp [List.filter_cons, hv]
    · rw [addFiles_toasts]
      have hm : f.mime ∈ validTypes := by
        by_cases hm : f.mime ∈ validTypes
        · exact hm
        · simp [validFile, hm] at hv
      have hs : ¬ maxSize < f.size := by
        simp [validFile, hm] at hv
        omega
      simp [hm, hs, validateCandidates]

/-- `addFiles` leaves the upload-id cache untouched. -/
theorem addFiles_uploadedFileIds (cands : List JSFile) (st : ClientState) :
    (addFiles cands st).uploadedFileIds = st.uploadedFileIds := by
  simp only [addFiles]
  rcases h : validateCandidates cands with ⟨valid, ts⟩
  simp [previewFirstImage, updateProcessButton]

/-- What the `finally` block guarantees: processing flag cleared,
overlay hidden, button disabled exactly when the list is empty, and the
staged list untouched. -/
theorem finallyCleanup_spec (st : ClientState) :
    (finallyCleanup st).processing = false ∧
    (finallyCleanup st).overlayVisible = false ∧
    (finallyCleanup st).processBtnDisabled = (st.files.length == 0) ∧
    (finallyCleanup st).files = st.files := by
  simp [finallyCleanup, hideLoading, updateProcessButton]

/-! ### Claim theorems -/

/-- C7: after `updateProcessButton`, the process trigger is enabled
(not disabled) if and only if the staged list is non-empty and the
processing flag is false. -/
theorem process_button_enabled_iff (st : ClientState) :
    (updateProcessButton st).processBtnDisabled = false ↔
      st.files ≠ [] ∧ st.processing = false := by
  simp only [updateProcessButton]
  constructor
  · intro h
    simp only [Bool.or_eq_false_iff, beq_eq_false_iff_ne] at h
    exact ⟨fun hnil => h.1 (by simp [hnil]), h.2⟩
  · rintro ⟨hne, hp⟩
    simp only [Bool.or_eq_false_iff, beq_eq_false_iff_ne]
    exact ⟨fun hlen => hne (List.length_eq_zero.mp hlen), hp⟩

/-- C8: invoking `handleProcess` with an empty staged list or with the
processing flag already set is a no-op: no request is issued, nothing is
rendered, and the entire client state is returned unchanged. -/
theorem handleProcess_noop_when_guarded (u : Nat → Except String UploadResp)
    (p : Nat → Except String ProcessResp) (st : ClientState)
    (h : st.files = [] ∨ st.processing = true) :
    handleProcess u p st = BatchOut.mk st [] [] [] := by
  rcases h with h | h <;> simp [handleProcess, h]

/-- C1: if the guard passed and upload `j` is the first to come back
with a non-success HTTP status, the batch aborts at once: upload
requests were issued exactly for indices `0 .. j`, no processing call is
made for any file, nothing is rendered, exactly one error toast
referencing the response's status text is appended, and the cleanup
leaves the processing flag false with the trigger re-enabled. -/
theorem upload_failure_aborts_batch
    (u : Nat → Except String UploadResp) (p : Nat → Except String ProcessResp)
    (st : ClientState) (j : Nat) (ur : Nat → UploadResp)
    (hne : st.files ≠ []) (hproc : st.processing = false)
    (hj : j < st.files.length)
    (hpre : ∀ k, k < j → u k = Except.ok (ur k) ∧ (ur k).ok = true)
    (hfail : u j = Except.ok (ur j)) (hnok : (ur j).ok = false) :
    (handleProcess u p st).uploadCalls = List.range (j + 1) ∧
    (handleProcess u p st).processCalls = [] ∧
    (handleProcess u p st).rendered = [] ∧
    (handleProcess u p st).state.toasts =
      st.toasts ++ [("处理失败: 上传失败: " ++ (ur j).statusText, ToastType.error)] ∧
    (handleProcess u p st).state.processing = false ∧
    (handleProcess u p st).state.processBtnDisabled = false ∧
    (handleProcess u p st).state.overlayVisible = false := by
  have hlen : (st.files.length == 0) = false := by
    simp only [beq_eq_false_iff_ne]
    exact fun h => hne (List.length_eq_zero.mp h)
  have hg : (st.files.length == 0 || st.processing) = false := by rw [hlen, hproc]; rfl
  have hmsg : ∀ s : String, "处理失败: " ++ ("上传失败: " ++ s) = "处理失败: 上传失败: " ++ s := by
    intro s
    rw [← String.append_assoc]
    rfl
  have hcalls : (List.range (j + 1)).map (fun k => 0 + k) = List.range (j + 1) := by
    simp
  simp only [handleProcess, hg, Bool.false_eq_true, if_false]
  set st1 := showLoading "正在上传文件..." (updateProcessButton { st with processing := true })
    with hst1
  have hfiles1 : st1.files = st.files := by simp [hst1, showLoading, updateProcessButton]
  have hul := uploadLoop_fail u st1.files.length ur j st1.files.length 0 st1
    (by rw [hfiles1]; exact hj)
    (fun k hk => by rw [Nat.zero_add]; exact hpre k hk)
    (by rw [Nat.zero_add]; exact hfail)
    (by rw [Nat.zero_add]; exact hnok)
  rw [hul]
  refine ⟨hcalls, rfl, rfl, ?_, ?_, ?_, rfl⟩
  · show st1.toasts ++ [("处理失败: " ++ ("上传失败: " ++ (ur (0 + j)).statusText),
      ToastType.error)] = _
    rw [hmsg, Nat.zero_add]
    simp [hst1, showLoading, updateProcessButton]
  · rfl
  · show (st1.files.length == 0 || false) = false
    rw [hfiles1, hlen]
    rfl

/-- Witness for C1: two staged files; upload 0 succeeds, upload 1
returns HTTP 500; the batch aborts with one error toast. -/
theorem upload_failure_aborts_batch_witness :
    (stTwo.files ≠ [] ∧ stTwo.processing = false ∧ 1 < stTwo.files.length ∧
     (∀ k, k < 1 → urespFailAt1 k = Except.ok (urFailAt1 k) ∧ (urFailAt1 k).ok = true) ∧
     urespFailAt1 1 = Except.ok (urFailAt1 1) ∧ (urFailAt1 1).ok = false) ∧
    ((handleProcess urespFailAt1 prespAllOk stTwo).uploadCalls = List.range 2 ∧
     (handleProcess urespFailAt1 prespAllOk stTwo).processCalls = [] ∧
     (handleProcess urespFailAt1 prespAllOk stTwo).rendered = [] ∧
     (handleProcess urespFailAt1 prespAllOk stTwo).state.toasts =
       stTwo.toasts ++
         [("处理失败: 上传失败: " ++ (urFailAt1 1).statusText, ToastType.error)] ∧
     (handleProcess urespFailAt1 prespAllOk stTwo).state.processing = false ∧
     (handleProcess urespFailAt1 prespAllOk stTwo).state.processBtnDisabled = false ∧
     (handleProcess urespFailAt1 prespAllOk stTwo).state.overlayVisible = false) :=
  ⟨⟨by decide, rfl, by decide,
    fun k hk => ⟨rfl, by
      have hk0 := Nat.lt_one_iff.mp hk
      subst hk0
      decide⟩, rfl, rfl⟩,
   upload_failure_aborts_batch urespFailAt1 prespAllOk stTwo 1 urFailAt1
     (by decide) rfl (by decide)
     (fun k hk => ⟨rfl, by
      have hk0 := Nat.lt_one_iff.mp hk
      subst hk0
      decide⟩) rfl rfl⟩

/-- C2: every batch run (the guard passed), whatever the two servers do
— success, HTTP failure, or a thrown exception at any step — ends with
the guaranteed cleanup: the processing flag is false, the overlay is
hidden, and the process trigger has been re-evaluated (here: enabled,
since the staged list is untouched and non-empty). -/
theorem batch_cleanup_always_runs (u : Nat → Except String UploadResp)
    (p : Nat → Except String ProcessResp) (st : ClientState)
    (hne : st.files ≠ []) (hproc : st.processing = false) :
    (handleProcess u p st).state.processing = false ∧
    (handleProcess u p st).state.overlayVisible = false ∧
    (handleProcess u p st).state.processBtnDisabled = false := by
  have hlen : (st.files.length == 0) = false := by
    simp only [beq_eq_false_iff_ne]
    exact fun hlen => hne (List.length_eq_zero.mp hlen)
  have hg : (st.files.length == 0 || st.processing) = false := by
    rw [hlen, hproc]; rfl
  have hfin : ∀ x : ClientState, x.files = st.files →
      (finallyCleanup x).processing = false ∧
      (finallyCleanup x).overlayVisible = false ∧
      (finallyCleanup x).processBtnDisabled = false := by
    intro x hx
    obtain ⟨h1, h2, h3, _⟩ := finallyCleanup_spec x
    exact ⟨h1, h2, by rw [h3, hx, hlen]⟩
  simp only [handleProcess, hg, Bool.false_eq_true, if_false]
  set st1 := showLoading "正在上传文件..." (updateProcessButton { st with processing := true })
    with hst1
  have hfiles1 : st1.files = st.files := by simp [hst1, showLoading, updateProcessButton]
  rcases hu : uploadLoop u st1.files.length st1.files.length 0 st1 with ⟨st2, ucalls, ures⟩
  have hpres := uploadLoop_preserves u st1.files.length st1.files.length 0 st1
  rw [hu] at hpres
  cases ures with
  | error msg =>
    exact hfin _ (hpres.1.trans hfiles1)
  | ok entries =>
    rcases hp : processLoop p entries.length entries 0 st2 with ⟨st3, pcalls, pres⟩
    have hpres2 := processLoop_preserves p entries.length entries 0 st2
    rw [hp] at hpres2
    cases pres with
    | error msg =>
      simp only [hp]
      exact hfin _ (hpres2.1.trans (hpres.1.trans hfiles1))
    | ok presults =>
      cases presults with
      | nil =>
        simp only [hp]
        exact hfin _ (hpres2.1.trans (hpres.1.trans hfiles1))
      | cons hd tl =>
        have hd1 := displayResult_preserves hd.2 st3
        simp only [hp]
        exact hfin _ (hd1.1.trans (hpres2.1.trans (hpres.1.trans hfiles1)))

/-- Witness for C2 at a concrete input: two staged files, the second
upload failing with HTTP 500; cleanup still runs. -/
theorem batch_cleanup_always_runs_witness :
    (stTwo.files ≠ [] ∧ stTwo.processing = false) ∧
      ((handleProcess urespFailAt1 prespAllOk stTwo).state.processing = false ∧
       (handleProcess urespFailAt1 prespAllOk stTwo).state.overlayVisible = false ∧
       (handleProcess urespFailAt1 prespAllOk stTwo).state.processBtnDisabled = false) :=
  ⟨⟨by decide, rfl⟩,
   batch_cleanup_always_runs urespFailAt1 prespAllOk stTwo (by decide) rfl⟩

/-- Witness for C8 at a concrete state: the initial page state has an
empty staged list, and the batch action leaves everything unchanged. -/
theorem handleProcess_noop_when_guarded_witness :
    (initState.files = [] ∨ initState.processing = true) ∧
      handleProcess urespAllOk prespAllOk initState = BatchOut.mk initState [] [] [] :=
  ⟨Or.inl rfl,
   handleProcess_noop_when_guarded urespAllOk prespAllOk initState (Or.inl rfl)⟩

/-- C3: a candidate is rejected by validation exactly when its MIME
type is outside the allow-list (the `image/...` strings of PNG, JPEG —
including its conventional `image/jpg` alias — BMP and TIFF) or its
size exceeds 10 MiB; a rejected candidate leaves the staged list
unchanged and produces exactly one error toast; an accepted candidate
is staged (through the duplicate filter) with no toast; over a batch,
exactly one toast per rejected candidate is emitted, each an error. -/
theorem validation_rejects_bad_candidates (f : JSFile) (st : ClientState)
    (cands : List JSFile) :
    (validFile f = false ↔ f.mime ∉ validTypes ∨ maxSize < f.size) ∧
    (validFile f = false →
      (addFiles [f] st).files = st.files ∧
      ∃ msg, (addFiles [f] st).toasts = st.toasts ++ [(msg, ToastType.error)]) ∧
    (validFile f = true →
      (addFiles [f] st).files = pushIfNew st.files f ∧
      (addFiles [f] st).toasts = st.toasts) ∧
    (addFiles cands st).toasts.length =
      st.toasts.length + cands.countP (fun g => !(validFile g)) ∧
    ∀ t ∈ (addFiles cands st).toasts, t ∈ st.toasts ∨ t.2 = ToastType.error := by
  refine ⟨?_, ?_, ?_, ?_, ?_⟩
  · constructor
    · intro h
      by_cases hm : f.mime ∈ validTypes
      · simp [validFile, hm] at h
        right
        omega
      · exact Or.inl hm
    · intro h
      rcases h with h | h
      · simp [validFile, h]
      · simp [validFile]
        intro _
        omega
  · exact (addFiles_single f st).1
  · exact (addFiles_single f st).2
  · rw [addFiles_toasts]
    simp [validateCandidates_snd_length]
  · intro t ht
    rw [addFiles_toasts] at ht
    rcases List.mem_append.mp ht with h | h
    · exact Or.inl h
    · exact Or.inr (validateCandidates_snd_error cands t h)

/-- Witness for C3: a GIF candidate is rejected (list unchanged, one
error toast) while a PNG passes. -/
theorem validation_rejects_bad_candidates_witness :
    (validFile badGif = false ∧ validFile pngA = true) ∧
    ((addFiles [badGif] initState).files = initState.files ∧
     ∃ msg, (addFiles [badGif] initState).toasts =
       initState.toasts ++ [(msg, ToastType.error)]) ∧
    ((addFiles [pngA] initState).files = pushIfNew initState.files pngA ∧
     (addFiles [pngA] initState).toasts = initState.toasts) :=
  ⟨⟨by decide, by decide⟩,
   (validation_rejects_bad_candidates badGif initState []).2.1 (by decide),
   (validation_rejects_bad_candidates pngA initState []).2.2.1 (by decide)⟩

/-- The duplicate filter preserves the no-duplicate-keys invariant. -/
theorem pushIfNew_noDup (l : List JSFile) (f : JSFile) (h : NoDupKeys l) :
    NoDupKeys (pushIfNew l f) := by
  unfold pushIfNew
  by_cases ha : l.any (fun g => g.name == f.name && g.size == f.size) = true
  · simp only [ha, if_true]
    exact h
  · simp only [ha, Bool.false_eq_true, if_false]
    rw [NoDupKeys, List.pairwise_append]
    refine ⟨h, List.pairwise_singleton _ _, ?_⟩
    intro a hal b hb
    rcases List.mem_singleton.mp hb with rfl
    simp only [List.any_eq_true, not_exists, not_and] at ha
    have := ha a hal
    simp only [sameKey]
    simp only [Bool.and_eq_true, not_and] at this
    by_cases hn : (a.name == b.name) = true
    · simp [hn, this hn]
    · simp [hn]

/-- The staging fold preserves the no-duplicate-keys invariant. -/
theorem foldl_pushIfNew_noDup (l : List JSFile) :
    ∀ acc, NoDupKeys acc → NoDupKeys (l.foldl pushIfNew acc) := by
  induction l with
  | nil => intro acc h; exact h
  | cons f rest ih =>
    intro acc h
    exact ih (pushIfNew acc f) (pushIfNew_noDup acc f h)

/-- C4: a validated candidate whose (name, size) pair matches a staged
entry is silently dropped — list and toasts unchanged — and the
no-two-entries-share-(name, size) invariant is preserved by every
operation that modifies the staged list: `addFiles`, `removeFile`,
`clearFileList`. -/
theorem staged_list_no_duplicate_keys (st : ClientState) (f : JSFile)
    (cands : List JSFile) (i : Nat) :
    (validFile f = true →
      st.files.any (fun g => g.name == f.name && g.size == f.size) = true →
      (addFiles [f] st).files = st.files ∧ (addFiles [f] st).toasts = st.toasts) ∧
    (NoDupKeys st.files → NoDupKeys (addFiles cands st).files) ∧
    (NoDupKeys st.files → NoDupKeys (removeFile i st).files) ∧
    NoDupKeys (clearFileList st).files := by
  refine ⟨?_, ?_, ?_, ?_⟩
  · intro hv ha
    obtain ⟨hfl, hts⟩ := (addFiles_single f st).2 hv
    refine ⟨?_, hts⟩
    rw [hfl]
    unfold pushIfNew
    simp [ha]
  · intro h
    rw [addFiles_files]
    exact foldl_pushIfNew_noDup _ _ h
  · intro h
    have h1 : List.Sublist (st.files.drop (i + 1)) (st.files.drop i) := by
      rw [← List.drop_drop]
      exact List.drop_sublist 1 (st.files.drop i)
    have h2 : NoDupKeys (st.files.take i ++ st.files.drop i) := by
      rw [List.take_append_drop]
      exact h
    exact List.Pairwise.sublist (List.Sublist.append_left h1 _) h2
  · exact List.Pairwise.nil

/-- Witness for C4: `pngA` is already staged in `stTwo`; adding it
again changes neither the list nor the toasts. -/
theorem staged_list_no_duplicate_keys_witness :
    (validFile pngA = true ∧
     stTwo.files.any (fun g => g.name == pngA.name && g.size == pngA.size) = true) ∧
    ((addFiles [pngA] stTwo).files = stTwo.files ∧
     (addFiles [pngA] stTwo).toasts = stTwo.toasts) :=
  ⟨⟨by decide, by decide⟩,
   (staged_list_no_duplicate_keys stTwo pngA [pngA] 0).1 (by decide) (by decide)⟩

/-- C5: when the guard passed and every upload and every processing
call succeeds, `displayResult` is invoked exactly once, with the first
file's result — every other result is discarded — the displayed counts
come from that first result, and exactly one success toast reporting the
number of files processed is appended. -/
theorem success_renders_first_result_only
    (u : Nat → Except String UploadResp) (p : Nat → Except String ProcessResp)
    (st : ClientState) (ur : Nat → UploadResp) (pr : Nat → ProcessResp)
    (hne : st.files ≠ []) (hproc : st.processing = false)
    (hu : ∀ k, k < st.files.length → u k = Except.ok (ur k) ∧ (ur k).ok = true)
    (hp : ∀ k, k < st.files.length → p k = Except.ok (pr k) ∧ (pr k).ok = true) :
    (handleProcess u p st).rendered = [(pr 0).result] ∧
    (handleProcess u p st).state.toasts =
      st.toasts ++
        [("成功处理 " ++ toString st.files.length ++ " 个文件", ToastType.success)] ∧
    (handleProcess u p st).state.rowCount = ((pr 0).result.row_count).getD 0 ∧
    (handleProcess u p st).state.colCount = ((pr 0).result.col_count).getD 0 ∧
    (handleProcess u p st).state.cellCount =
      ((pr 0).result.row_count).getD 0 * ((pr 0).result.col_count).getD 0 ∧
    (handleProcess u p st).state.resultVisible = true := by
  have hlen : (st.files.length == 0) = false := by
    simp only [beq_eq_false_iff_ne]
    exact fun h => hne (List.length_eq_zero.mp h)
  have hg : (st.files.length == 0 || st.processing) = false := by rw [hlen, hproc]; rfl
  obtain ⟨m, hm⟩ : ∃ m, st.files.length = m + 1 :=
    ⟨st.files.length - 1, by
      have := List.length_pos.mpr hne
      omega⟩
  simp only [handleProcess, hg, Bool.false_eq_true, if_false]
  set st1 := showLoading "正在上传文件..." (updateProcessButton { st with processing := true })
    with hst1
  have hfiles1 : st1.files = st.files := by simp [hst1, showLoading, updateProcessButton]
  have htoasts1 : st1.toasts = st.toasts := by simp [hst1, showLoading, updateProcessButton]
  have hn : st1.files.length = m + 1 := by rw [hfiles1, hm]
  rw [hn]
  have hul := uploadLoop_ok u (m + 1) ur m 0 st1
    (fun k hk => by
      rw [Nat.zero_add]
      exact hu k (by rw [hm]; exact hk))
  rw [hul,
      range_map_shift (fun x => UploadEntry.mk x (ur x).file_id (ur x).filename) 0 m]
  set E0 := UploadEntry.mk 0 (ur 0).file_id (ur 0).filename with hE0
  set restE := (List.range m).map
    (fun k => UploadEntry.mk (0 + 1 + k) (ur (0 + 1 + k)).file_id (ur (0 + 1 + k)).filename)
    with hrestE
  have hrest : restE.length = m := by simp [hrestE]
  set st2 := { st1 with overlayMessage := uploadMsg (0 + m + 1) (m + 1) } with hst2
  have hpl := processLoop_ok p (E0 :: restE).length pr restE E0 0 st2
    (fun k hk => by
      rw [Nat.zero_add]
      refine hp k ?_
      rw [hm]
      rw [hrest] at hk
      exact hk)
  simp only [hpl]
  simp only [processedOf]
  have hplen : (processedOf pr restE 1).length = m := by rw [processedOf_length, hrest]
  refine ⟨trivial, ?_, ?_, ?_, ?_, ?_⟩
  · simp only [finallyCleanup, hideLoading, updateProcessButton, showToast,
      List.length_cons, hplen, displayResult_toasts]
    rw [hm, htoasts1]
  · simp only [finallyCleanup, hideLoading, updateProcessButton, showToast,
      displayResult_rowCount]
  · simp only [finallyCleanup, hideLoading, updateProcessButton, showToast,
      displayResult_colCount]
  · simp only [finallyCleanup, hideLoading, updateProcessButton, showToast,
      displayResult_cellCount]
  · simp only [finallyCleanup, hideLoading, updateProcessButton, showToast,
      displayResult_resultVisible]

/-- Witness for C5: two staged files, both uploads and both processing
calls succeed with `sampleResult`; only the first result is rendered and
one success toast reports two files. -/
theorem success_renders_first_result_only_witness :
    (stTwo.files ≠ [] ∧ stTwo.processing = false ∧
     (∀ k, k < stTwo.files.length →
        urespAllOk k = Except.ok (okUpload k) ∧ (okUpload k).ok = true) ∧
     (∀ k, k < stTwo.files.length →
        prespAllOk k = Except.ok (prAllOk k) ∧ (prAllOk k).ok = true)) ∧
    ((handleProcess urespAllOk prespAllOk stTwo).rendered = [(prAllOk 0).result] ∧
     (handleProcess urespAllOk prespAllOk stTwo).state.toasts =
       stTwo.toasts ++
         [("成功处理 " ++ toString stTwo.files.length ++ " 个文件", ToastType.success)] ∧
     (handleProcess urespAllOk prespAllOk stTwo).state.rowCount =
       ((prAllOk 0).result.row_count).getD 0 ∧
     (handleProcess urespAllOk prespAllOk stTwo).state.colCount =
       ((prAllOk 0).result.col_count).getD 0 ∧
     (handleProcess urespAllOk prespAllOk stTwo).state.cellCount =
       ((prAllOk 0).result.row_count).getD 0 * ((prAllOk 0).result.col_count).getD 0 ∧
     (handleProcess urespAllOk prespAllOk stTwo).state.resultVisible = true) :=
  ⟨⟨by decide, rfl, fun k _ => ⟨rfl, rfl⟩, fun k _ => ⟨rfl, rfl⟩⟩,
   success_renders_first_result_only urespAllOk prespAllOk stTwo okUpload prAllOk
     (by decide) rfl (fun k _ => ⟨rfl, rfl⟩) (fun k _ => ⟨rfl, rfl⟩)⟩

/-- `sameKey` is reflexive. -/
theorem sameKey_self (f : JSFile) : sameKey f f = true := by
  simp [sameKey]

/-- C9: removing a valid index `i` from the staged list yields a list
one shorter, in which entries before `i` keep their positions, entries
after `i` shift down by one (relative order preserved), and — the list
having no duplicate (name, size) keys — the removed entry is absent. -/
theorem removeFile_spec (st : ClientState) (i : Nat)
    (h : i < st.files.length) (hnd : NoDupKeys st.files) :
    (removeFile i st).files.length = st.files.length - 1 ∧
    (∀ j, j < i → (removeFile i st).files[j]? = st.files[j]?) ∧
    (∀ j, i ≤ j → j < st.files.length - 1 →
      (removeFile i st).files[j]? = st.files[j + 1]?) ∧
    st.files.get ⟨i, h⟩ ∉ (removeFile i st).files := by
  have hfe : (removeFile i st).files = st.files.take i ++ st.files.drop (i + 1) := rfl
  have hlt : (st.files.take i).length = i := by
    rw [List.length_take]
    omega
  refine ⟨?_, ?_, ?_, ?_⟩
  · rw [hfe]
    simp only [List.length_append, List.length_take, List.length_drop]
    omega
  · intro j hj
    rw [hfe, List.getElem?_append_left (by rw [hlt]; omega)]
    exact List.getElem?_take_of_lt hj
  · intro j hij hjn
    rw [hfe, List.getElem?_append_right (by rw [hlt]; omega), hlt,
        List.getElem?_drop]
    congr 1
    omega
  · intro hmem
    rw [hfe] at hmem
    rcases List.mem_append.mp hmem with h2 | h2
    · obtain ⟨n, hn⟩ := List.mem_iff_get.mp h2
      have hni : (n : Nat) < i := by
        have := n.isLt
        omega
      have heq : st.files.get ⟨(n : Nat), by omega⟩ = st.files.get ⟨i, h⟩ := by
        rw [← hn]
        simp [List.get_eq_getElem, List.getElem_take]
      have hpw := (List.pairwise_iff_get.mp hnd) ⟨(n : Nat), by omega⟩ ⟨i, h⟩
        (Fin.mk_lt_mk.mpr hni)
      rw [heq] at hpw
      simp [sameKey_self] at hpw
    · obtain ⟨n, hn⟩ := List.mem_iff_get.mp h2
      have hn2 : i + 1 + (n : Nat) < st.files.length := by
        have h3 := n.isLt
        have h4 : (st.files.drop (i + 1)).length = st.files.length - (i + 1) :=
          List.length_drop _ _
        omega
      have heq : st.files.get ⟨i + 1 + (n : Nat), hn2⟩ = st.files.get ⟨i, h⟩ := by
        rw [← hn]
        simp [List.get_eq_getElem, List.getElem_drop]
      have hpw := (List.pairwise_iff_get.mp hnd) ⟨i, h⟩ ⟨i + 1 + (n : Nat), hn2⟩
        (Fin.mk_lt_mk.mpr (by omega))
      rw [heq] at hpw
      simp [sameKey_self] at hpw

/-- Witness for C9: removing index 0 from the two-file staged list. -/
theorem removeFile_spec_witness :
    (0 < stTwo.files.length ∧ NoDupKeys stTwo.files) ∧
    ((removeFile 0 stTwo).files.length = stTwo.files.length - 1 ∧
     (∀ j, j < 0 → (removeFile 0 stTwo).files[j]? = stTwo.files[j]?) ∧
     (∀ j, 0 ≤ j → j < stTwo.files.length - 1 →
       (removeFile 0 stTwo).files[j]? = stTwo.files[j + 1]?) ∧
     stTwo.files.get ⟨0, by decide⟩ ∉ (removeFile 0 stTwo).files) :=
  ⟨⟨by decide, by unfold NoDupKeys; decide⟩,
   removeFile_spec stTwo 0 (by decide) (by unfold NoDupKeys; decide)⟩

/-- Row `i` of the table built from row index `k` onwards: the cell tag
is `th` exactly when the header flag is set and the absolute row index
is zero. -/
theorem buildRows_getElem (h : Bool) :
    ∀ (l : List (List (Option String))) (k i : Nat),
      (buildRows h k l)[i]? =
        (l[i]?).map (fun row => row.map
          (fun c => Cell.mk (if h && (k + i) == 0 then "th" else "td") (c.getD ""))) := by
  intro l
  induction l with
  | nil => intro k i; simp [buildRows]
  | cons row rest ih =>
    intro k i
    cases i with
    | zero => simp [buildRows]
    | succ i2 =>
      simp only [buildRows, List.getElem?_cons_succ]
      rw [ih (k + 1) i2]
      simp only [show k + 1 + i2 = k + (i2 + 1) from by omega]

/-- C6: rendering a `ProcessResult` — a missing or empty preview grid
leaves the table preview unchanged; a non-empty grid replaces it with
`buildTable grid`, whose first row is header (`th`) cells exactly when
the grid has more than one row and whose other rows are ordinary (`td`)
cells; the row, column, and cell (product) counters are always updated,
defaulting to zero when the field is absent. -/
theorem displayResult_spec (r : ProcessResultJS) (st : ClientState) :
    ((r.preview_data = none ∨ r.preview_data = some []) →
      (displayResult r st).tablePreview = st.tablePreview) ∧
    (∀ grid, r.preview_data = some grid → grid ≠ [] →
      (displayResult r st).tablePreview = some (buildTable grid)) ∧
    (∀ grid : List (List (Option String)), 1 < grid.length →
      (buildTable grid)[0]? =
        (grid[0]?).map (fun row => row.map (fun c => Cell.mk "th" (c.getD "")))) ∧
    (∀ (grid : List (List (Option String))) (i : Nat), 1 < grid.length → 0 < i →
      (buildTable grid)[i]? =
        (grid[i]?).map (fun row => row.map (fun c => Cell.mk "td" (c.getD "")))) ∧
    (∀ (grid : List (List (Option String))) (i : Nat), grid.length ≤ 1 →
      (buildTable grid)[i]? =
        (grid[i]?).map (fun row => row.map (fun c => Cell.mk "td" (c.getD "")))) ∧
    (displayResult r st).rowCount = r.row_count.getD 0 ∧
    (displayResult r st).colCount = r.col_count.getD 0 ∧
    (displayResult r st).cellCount = r.row_count.getD 0 * r.col_count.getD 0 := by
  refine ⟨?_, ?_, ?_, ?_, ?_, displayResult_rowCount r st, displayResult_colCount r st,
    displayResult_cellCount r st⟩
  · intro hpd
    rcases hpd with hp | hp
    · simp only [displayResult, hp]
      cases r.excel_url <;> simp
    · simp only [displayResult, hp]
      cases r.excel_url <;> simp
  · intro grid hp hne
    have hpos : 0 < grid.length := List.length_pos.mpr hne
    simp only [displayResult, hp]
    rw [if_pos hpos]
    cases r.excel_url <;> simp
  · intro grid hlen
    unfold buildTable
    rw [buildRows_getElem]
    have hd : decide (1 < grid.length) = true := decide_eq_true hlen
    simp [hd]
  · intro grid i h1 hi
    unfold buildTable
    rw [buildRows_getElem]
    have hne : i ≠ 0 := by omega
    simp [hne]
  · intro grid i hlen
    unfold buildTable
    rw [buildRows_getElem]
    have hd : decide (1 < grid.length) = false := decide_eq_false (by omega)
    simp [hd]

/-- Witness for C6 at `sampleResult` (a two-row grid): the table is
rendered with a `th` first row, and the counters update. -/
theorem displayResult_spec_witness :
    (sampleResult.preview_data =
       some [[some "H1", some "H2"], [some "v1", some "v2"]] ∧
     ([[some "H1", some "H2"], [some "v1", some "v2"]] :
       List (List (Option String))) ≠ [] ∧
     1 < ([[some "H1", some "H2"], [some "v1", some "v2"]] :
       List (List (Option String))).length) ∧
    ((displayResult sampleResult initState).tablePreview =
       some (buildTable [[some "H1", some "H2"], [some "v1", some "v2"]]) ∧
     (buildTable [[some "H1", some "H2"], [some "v1", some "v2"]])[0]? =
       (([[some "H1", some "H2"], [some "v1", some "v2"]] :
          List (List (Option String)))[0]?).map
         (fun row => row.map (fun c => Cell.mk "th" (c.getD ""))) ∧
     (displayResult sampleResult initState).rowCount = 2) :=
  ⟨⟨rfl, by decide, by decide⟩,
   (displayResult_spec sampleResult initState).2.1 _ rfl (by decide),
   (displayResult_spec sampleResult initState).2.2.1 _ (by decide),
   (displayResult_spec sampleResult initState).2.2.2.2.2.1⟩

/-- The step function never puts anything into the upload-id cache. -/
theorem step_uploadedFileIds_empty (st : ClientState) (a : Action)
    (h : st.uploadedFileIds = []) : (step st a).uploadedFileIds = [] := by
  cases a with
  | add cands =>
    rw [show step st (Action.add cands) = addFiles cands st from rfl,
        addFiles_uploadedFileIds]
    exact h
  | remove i =>
    show deleteKey i st.uploadedFileIds = []
    rw [h]
    rfl
  | clear => rfl
  | batch u p =>
    exact (handleProcess_preserves u p st).2.trans h
  | another => rfl

/-- C10: in every state reachable from the initial page state by any
sequence of user actions (with arbitrary server behaviour), the
upload-identifier cache `state.uploadedFileIds` is empty — `handleProcess`
keeps its upload results only in a local array — and the cache-deletion
step of `removeFile` is a no-op on it. -/
theorem uploadedFileIds_always_empty (acts : List Action) :
    (runActions acts).uploadedFileIds = [] ∧
    ∀ i, deleteKey i (runActions acts).uploadedFileIds =
      (runActions acts).uploadedFileIds := by
  have hinv : ∀ (l : List Action) (st : ClientState), st.uploadedFileIds = [] →
      (l.foldl step st).uploadedFileIds = [] := by
    intro l
    induction l with
    | nil => intro st h; exact h
    | cons a rest ih =>
      intro st h
      exact ih (step st a) (step_uploadedFileIds_empty st a h)
  have h1 : (runActions acts).uploadedFileIds = [] := hinv acts initState rfl
  refine ⟨h1, fun i => ?_⟩
  rw [h1]
  rfl

end TableExtractorWeb
